import Mathlib

/-!
Shallow embedding of the SATAn benchmark runner (Rust) for checking its
natural-language specification. Each definition mirrors one function of
the source tree under src/runner/src; the theorems at the end settle the
spec claims against these definitions.
-/

namespace SATAn

/-! ### Data model (src/runner/src/database.rs) -/

/-- Tri-state satisfiability, repr(i8): Unsatisfiable = -1, Unknown = 0,
Satisfiable = 1 (database.rs, enum Satisfiability). -/
inductive Satisfiability where
  | unsatisfiable
  | unknown
  | satisfiable
deriving DecidableEq, Repr

/-- The i8 representation used when binding the value into SQL
(`metrics.satisfiable as i8`). -/
def Satisfiability.toI8 : Satisfiability → Int
  | .unsatisfiable => -1
  | .unknown => 0
  | .satisfiable => 1

/-- TestMetrics (database.rs). Machine integers are modelled as Nat: all
fields are unsigned in the source (u64/u32) and no arithmetic is done on
them on the paths under study, so no overflow reduction is needed. -/
structure TestMetrics where
  runtime : Nat
  satisfiable : Satisfiability
  parse_time : Nat
  memory_usage : Nat
  restarts : Nat
  conflicts : Nat
  propagations : Nat
  conflict_literals : Nat
  number_of_variables : Nat
  number_of_clauses : Nat
deriving DecidableEq, Repr

/-- `TestMetrics::failed()` (database.rs): the failure bundle recorded on
timeout — every numeric field 0, satisfiability Unknown. -/
def TestMetrics.failed : TestMetrics where
  runtime := 0
  conflict_literals := 0
  propagations := 0
  number_of_clauses := 0
  number_of_variables := 0
  parse_time := 0
  restarts := 0
  satisfiable := .unknown
  conflicts := 0
  memory_usage := 0

/-- Every numeric field of the metrics record is zero. -/
def TestMetrics.allNumericZero (m : TestMetrics) : Prop :=
  m.runtime = 0 ∧ m.parse_time = 0 ∧ m.memory_usage = 0 ∧ m.restarts = 0 ∧
  m.conflicts = 0 ∧ m.propagations = 0 ∧ m.conflict_literals = 0 ∧
  m.number_of_variables = 0 ∧ m.number_of_clauses = 0

instance (m : TestMetrics) : Decidable m.allNumericZero := by
  unfold TestMetrics.allNumericZero; infer_instance

/-- MetricsBundle (database.rs / database/batched.rs): metrics plus the
insertion context. Paths and names are modelled as strings. -/
structure MetricsBundle where
  metrics : TestMetrics
  solver : String
  test_set : String
  target : String
deriving DecidableEq, Repr

/-! ### Batched adapter (src/runner/src/database/batched.rs)

`BatchedConnection` holds a buffer of bundles and a batch size. The model
tracks, besides the buffer, the list of rows the inner adapter has
received via `store_iter` (the claims quantify over runs where every
inner call succeeds, so the inner adapter is modelled as an append-only
row list). -/

structure BatchedConnection where
  /-- bundles currently buffered (Vec, push at the back) -/
  buffer : List MetricsBundle
  /-- configured batch size -/
  size : Nat
  /-- rows inserted into the inner adapter so far, in insertion order -/
  inserted : List MetricsBundle
deriving DecidableEq, Repr

/-- A fresh batched adapter as produced by `BatchedConnection::load`
(empty buffer; load rejects size <= 1, callers pass size ≥ 2). -/
def BatchedConnection.loaded (size : Nat) : BatchedConnection where
  buffer := []
  size := size
  inserted := []

/-- `BatchedConnection::store` (batched.rs lines 67-90): under the buffer
lock, if the buffer length already equals `size` the whole buffer is
drained into one inner `store_iter` call and cleared — the incoming
bundle is in neither the drain nor the cleared buffer; otherwise the
incoming bundle is pushed onto the buffer. Returns i32::MIN (sentinel),
not modelled. -/
def BatchedConnection.store (c : BatchedConnection) (b : MetricsBundle) :
    BatchedConnection :=
  if c.buffer.length = c.size then
    { c with inserted := c.inserted ++ c.buffer, buffer := [] }
  else
    { c with buffer := c.buffer ++ [b] }

/-- `BatchedConnection::close` (batched.rs lines 53-65): if the buffer is
non-empty, drain it into one inner `store_iter` call, then close the
inner connection. Returns the full row list the inner adapter received. -/
def BatchedConnection.close (c : BatchedConnection) : List MetricsBundle :=
  if c.buffer.length > 0 then c.inserted ++ c.buffer else c.inserted

/-- A sequence of `store` calls, in order. -/
def BatchedConnection.storeMany (c : BatchedConnection)
    (bs : List MetricsBundle) : BatchedConnection :=
  bs.foldl BatchedConnection.store c

/-! ### Direct SQLite adapter, insert parameter binding
(src/runner/src/database/sqlite.rs)

Only the parameter lists bound into the two insert statements matter to
the claims; the SQL text and id assignment are external. A bound
parameter is NULL, an integer, or text. -/

inductive SqlValue where
  | null
  | int (n : Int)
  | text (s : String)
deriving DecidableEq, Repr

/-- `InnerConnection::store` (sqlite.rs lines 269-310): the parameter row
bound into the single-row insert. The first parameter is
`if metrics.runtime == 0 { None } else { Some(metrics.runtime) }`;
solver/test ids and benchmark id are resolved from the context. -/
def InnerConnection.storeParams (metrics : TestMetrics) (target : String)
    (solverId testId benchmarkId : Int) : List SqlValue :=
  [ if metrics.runtime = 0 then SqlValue.null else SqlValue.int metrics.runtime,
    SqlValue.int metrics.parse_time,
    SqlValue.int metrics.satisfiable.toI8,
    SqlValue.int metrics.memory_usage,
    SqlValue.int metrics.restarts,
    SqlValue.int metrics.conflicts,
    SqlValue.int metrics.propagations,
    SqlValue.int metrics.conflict_literals,
    SqlValue.int metrics.number_of_variables,
    SqlValue.int metrics.number_of_clauses,
    SqlValue.text target,
    SqlValue.int solverId,
    SqlValue.int testId,
    SqlValue.int benchmarkId ]

/-- `InnerConnection::store_iter` (sqlite.rs lines 312-362): the parameter
row bound per bundle inside the bulk-insert transaction. The first
parameter is `bundle.metrics.runtime` verbatim — no zero-to-NULL
conversion. -/
def InnerConnection.storeIterParams (bundle : MetricsBundle)
    (solverId testId benchmarkId : Int) : List SqlValue :=
  [ SqlValue.int bundle.metrics.runtime,
    SqlValue.int bundle.metrics.parse_time,
    SqlValue.int bundle.metrics.satisfiable.toI8,
    SqlValue.int bundle.metrics.memory_usage,
    SqlValue.int bundle.metrics.restarts,
    SqlValue.int bundle.metrics.conflicts,
    SqlValue.int bundle.metrics.propagations,
    SqlValue.int bundle.metrics.conflict_literals,
    SqlValue.int bundle.metrics.number_of_variables,
    SqlValue.int bundle.metrics.number_of_clauses,
    SqlValue.text bundle.target,
    SqlValue.int solverId,
    SqlValue.int testId,
    SqlValue.int benchmarkId ]

/-! ### Adapter close retry loop (src/runner/src/database/sqlite.rs
lines 234-251)

`InnerConnection::close`: counter starts at 0; each failed underlying
close increments it; when the counter hits 3 the error is surfaced.
The outcome of the k-th underlying `Connection::close` call (k = 0,1,…)
is supplied as an oracle `att : Nat → Bool` (true = closed). The result
records whether close returned ok and how many underlying close calls
were made. -/

def InnerConnection.closeFrom (att : Nat → Bool) : Nat → Nat → Bool × Nat
  | counter, 0 => (false, counter)
  | counter, fuel + 1 =>
    if att counter then (true, counter + 1)
    else if counter + 1 = 3 then (false, counter + 1)
    else InnerConnection.closeFrom att (counter + 1) fuel

/-- `InnerConnection::close`: run the retry loop from counter 0. The fuel
3 is exact: the loop body can only recurse while counter + 1 < 3. -/
def InnerConnection.close (att : Nat → Bool) : Bool × Nat :=
  InnerConnection.closeFrom att 0 3

/-! ### CLI solver/test filtering (src/runner/src/main.rs lines 218-241)

On `execute --solver … --test …` the config maps are rebuilt keeping the
entries whose key is NOT contained in the argument list
(`.filter(|(key, _)| !list.contains(&key.to_string()))`). The BTreeMap is
modelled as its association list. -/

def executeFilter (given : List String) (entries : List (String × α)) :
    List (String × α) :=
  entries.filter fun kv => ¬ given.contains kv.1

/-! ### Preflight Glob path/paths handling (src/runner/src/config.rs
lines 375-396) and Glob root setup (src/runner/src/collector.rs
lines 97-119) -/

/-- Outcome of the Glob arm of `SolverConfig::preflight_checks` for one
test set: the new `path`/`paths` fields, whether the both-given warning
was emitted, and whether the neither-given error was recorded. -/
structure GlobPreflight where
  path : Option String
  paths : List String
  warned : Bool
  errored : Bool
deriving DecidableEq, Repr

/-- config.rs, Glob arm of the collector match inside
`preflight_checks`: if neither `path` nor `paths` is given, record an
error; else if `path` is given and `paths` is non-empty, warn ("treated
as if 'path' is a member of 'paths'") and change nothing; else if only
`path` is given, push it into `paths` (and leave `path` set). -/
def preflightGlob (path : Option String) (paths : List String) :
    GlobPreflight :=
  if path.isNone ∧ paths.isEmpty then
    { path := path, paths := paths, warned := false, errored := true }
  else
    match path with
    | some p =>
      if ¬ paths.isEmpty then
        { path := path, paths := paths, warned := true, errored := false }
      else
        { path := path, paths := paths ++ [p], warned := false,
          errored := false }
    | none =>
      { path := path, paths := paths, warned := false, errored := false }

/-- collector.rs, `Collector::load`, Glob arm: the walk roots handed to
the WalkBuilder — `paths` first (split_first + add), then `path` if set. -/
def globWalkRoots (path : Option String) (paths : List String) :
    List String :=
  paths ++ path.toList

/-! ### Timeout branch of the local executor
(src/runner/src/executors/local.rs lines 309-362)

When `wait_timeout` returns None the child is killed and
`TestMetrics::failed()` is inserted inside a fresh transaction. The four
fallible steps (connection lock, transaction open, insert, commit) are
supplied as oracles; the model records whether the child was killed,
which metrics row was committed (if any), and how much the error counter
grew. -/

structure TimeoutOutcome where
  killed : Bool
  /-- the metrics record committed for this task, if any -/
  committed : Option TestMetrics
  /-- amount added to the atomic error counter -/
  errorsAdded : Nat
deriving DecidableEq, Repr

def timeoutBranch (lockOk txOk insertOk commitOk : Bool) : TimeoutOutcome :=
  if ¬ lockOk then
    { killed := true, committed := none, errorsAdded := 1 }
  else if ¬ txOk then
    { killed := true, committed := none, errorsAdded := 1 }
  else if ¬ insertOk then
    { killed := true, committed := none, errorsAdded := 1 }
  else if ¬ commitOk then
    { killed := true, committed := none, errorsAdded := 1 }
  else
    { killed := true, committed := some TestMetrics.failed, errorsAdded := 0 }

/-! ### Paths and the filesystem claim step
(src/runner/src/collector.rs lines 208-275, src/runner/src/distributed/fs.rs)

A path is a parent directory plus a file name; `set_file_name` keeps the
parent and replaces the file name. File names are lists of characters so
that the byte-slice checks of the source translate directly. -/

structure FsPath where
  parent : String
  file : List Char
deriving DecidableEq, Repr

/-- `DONE_PREFIX` (distributed/fs.rs): "[done]_". -/
def doneTag : List Char := "[done]_".data

/-- `PROCESSING_PREFIX` (distributed/fs.rs): "[processing]_". -/
def processingTag : List Char := "[processing]_".data

/-- `PathValue` (collector.rs): a plain `PathBuf` or a claimed
`WrappedPath` receipt. -/
inductive PathValue where
  | buf (p : FsPath)
  | wrapped (p : FsPath)
deriving DecidableEq, Repr

/-- Outcome of the raw `rename(2)` call made by the FS collector. -/
inductive RenameOutcome where
  | ok
  | enoent
  | eacces
  | other (errno : Int)
deriving DecidableEq, Repr

/-- What the filesystem answers for one path: whether `path.exists()`
holds and how the claim rename would end. -/
structure FileStatus where
  present : Bool
  rename : RenameOutcome

/-- The ambient filesystem, an oracle consulted by the FS collector. -/
def FsEnv := FsPath → FileStatus

/-- Level at which a skipped path is logged by the claim step. -/
inductive LogLevel where
  | debugL
  | warnL
  | errorL
deriving DecidableEq, Repr

/-- Result of the FS claim step for one inner item: either an item is
yielded to the caller, or the item is skipped (with the log the step
emitted, none = no log at all). There is no error constructor: the
claim step cannot propagate an error. -/
inductive ClaimResult where
  | yielded (pv : PathValue)
  | skipped (log : Option LogLevel)
deriving DecidableEq, Repr

/-- Loop body of `Collector::next`, FS variant (collector.rs lines
210-271), for one item pulled from the inner collector: a `Wrapped`
item is returned as is; a `Buf` path is claimed when it exists and its
file name does not carry `DONE_PREFIX` (source check: name shorter than
the tag, or leading bytes differ), by renaming to the
`PROCESSING_PREFIX`-prefixed name in the same directory; rename
success yields a fresh receipt, ENOENT logs at debug, EACCES at warn,
any other errno at error, and all three skip the item. -/
def fsClaimStep (env : FsEnv) (pv : PathValue) : ClaimResult :=
  match pv with
  | .wrapped p => .yielded (.wrapped p)
  | .buf p =>
    if (env p).present then
      if p.file.length < doneTag.length ∨ p.file.take doneTag.length ≠ doneTag then
        match (env p).rename with
        | .ok => .yielded (.wrapped { p with file := processingTag ++ p.file })
        | .enoent => .skipped (some .debugL)
        | .eacces => .skipped (some .warnL)
        | .other _ => .skipped (some .errorL)
      else .skipped none
    else .skipped none

/-- The `while let Some(path) = inner.next()` loop of the FS variant
over the remaining items of the inner collector: apply the claim step to
each item in turn until one is yielded or the inner collector is
exhausted; return the yielded item (if any) and the items still ahead. -/
def fsNextList (env : FsEnv) : List PathValue → Option PathValue × List PathValue
  | [] => (none, [])
  | pv :: rest =>
    match fsClaimStep env pv with
    | .yielded out => (some out, rest)
    | .skipped _ => fsNextList env rest

/-- Iterating the FS claim loop to exhaustion over the inner collector's
item stream: everything the FS collector will ever yield. -/
def fsDrainAux (env : FsEnv) : List PathValue → List PathValue
  | [] => []
  | pv :: rest =>
    match fsClaimStep env pv with
    | .yielded out => out :: fsDrainAux env rest
    | .skipped _ => fsDrainAux env rest

/-! ### Collector (src/runner/src/collector.rs)

The enum's local variants. The two distributed-feature variants are not
part of this inductive: `MPI` is a stub whose `next` and `size_hint` are
`todo!()` (they panic, so they have no semantics to embed), and `FS`
wraps a whole collector only at top level (main.rs lines 280-301); it is
modelled by `FSCollector` below on top of the claim-step functions
above. -/

inductive Collector where
  | glob (paths : List FsPath)
  | gdb (paths : List FsPath)
  | grouped (collectors : List Collector)
deriving Repr

/-- `Vec::pop`: removes and returns the LAST element. The model list
keeps the source's vector order (push at the back). -/
def vecPop : List α → Option (α × List α)
  | [] => none
  | a :: rest =>
    match vecPop rest with
    | none => some (a, [])
    | some (x, rest') => some (x, a :: rest')

mutual

/-- `Collector::next` (collector.rs lines 191-207): Glob and GDB pop
from their path vector; Grouped asks each child in order (each child's
`next` mutates it even when it yields nothing) and returns the first
yielded item. The returned collector is the mutated `self`. -/
def Collector.next : Collector → Option PathValue × Collector
  | .glob l =>
    match vecPop l with
    | none => (none, .glob l)
    | some (p, l') => (some (.buf p), .glob l')
  | .gdb l =>
    match vecPop l with
    | none => (none, .gdb l)
    | some (p, l') => (some (.buf p), .gdb l')
  | .grouped cs =>
    match nextGroup cs with
    | (r, cs') => (r, .grouped cs')

/-- The `for collector in collectors` loop inside the Grouped arm of
`Collector::next`. -/
def nextGroup : List Collector → Option PathValue × List Collector
  | [] => (none, [])
  | c :: rest =>
    match Collector.next c with
    | (some pv, c') => (some pv, c' :: rest)
    | (none, c') =>
      match nextGroup rest with
      | (r, rest') => (r, c' :: rest')

end

mutual

/-- `Collector::size_hint` (collector.rs lines 173-188): Glob/GDB report
the exact remaining length; Grouped folds the children's lower bounds
(`fold(0, |acc, c| acc + c.size_hint().0)`, written here as a
right-nested sum, equal by associativity). -/
def Collector.sizeHint : Collector → Nat × Option Nat
  | .glob l => (l.length, some l.length)
  | .gdb l => (l.length, some l.length)
  | .grouped cs =>
    match sizeHintFold cs with
    | len => (len, some len)

/-- The fold inside the Grouped arm of `size_hint`. -/
def sizeHintFold : List Collector → Nat
  | [] => 0
  | c :: cs => (Collector.sizeHint c).1 + sizeHintFold cs

end

/-- Lower bound of `size_hint` (the `.0` the source folds over). -/
def hintLen (c : Collector) : Nat := c.sizeHint.1

/-- `Collector::join` (collector.rs lines 139-166): Grouped children
absorb the other side (extend on Grouped, push otherwise); two
non-Grouped arguments become a fresh two-child Grouped. Note that a
non-Grouped left argument is PUSHED BEHIND the right argument's
children. -/
def Collector.join : Collector → Collector → Collector
  | .grouped cs, .grouped cs' => .grouped (cs ++ cs')
  | .grouped cs, other => .grouped (cs ++ [other])
  | selfNg, .grouped cs => .grouped (cs ++ [selfNg])
  | selfNg, otherNg => .grouped [selfNg, otherNg]

/-- Whether a collector is the Grouped variant. -/
def Collector.isGrouped : Collector → Bool
  | .grouped _ => true
  | _ => false

/-- Direct children of a Grouped collector (else none). -/
def Collector.children : Collector → List Collector
  | .grouped cs => cs
  | _ => []

/-- One-level flattening: a Grouped collector contributes its direct
children, any other collector contributes itself. -/
def Collector.flatChildren : Collector → List Collector
  | .grouped cs => cs
  | c => [c]

/-! ### The FS wrapper collector (`Collector::FS`, collector.rs lines
42-45, 124-129, 183-184, 208-275) -/

/-- `Collector::FS { inner }`. -/
structure FSCollector where
  inner : Collector

/-- FS arm of `size_hint`: delegate to the inner collector. -/
def FSCollector.sizeHint (f : FSCollector) : Nat × Option Nat :=
  f.inner.sizeHint

/-- `next` called repeatedly until it yields nothing: the full iteration
of a collector. The fuel bounds the number of yields; `Collector.drain`
supplies one more than the size hint, which the exactness lemmas below
show is always enough. -/
def drainF : Nat → Collector → List PathValue
  | 0, _ => []
  | fuel + 1, c =>
    match Collector.next c with
    | (none, _) => []
    | (some pv, c') => pv :: drainF fuel c'

/-- Everything a collector yields, in yield order. -/
def Collector.drain (c : Collector) : List PathValue :=
  drainF (hintLen c + 1) c

/-- Everything an FS collector yields: the claim loop applied to the
full item stream of the inner collector. -/
def FSCollector.yields (env : FsEnv) (f : FSCollector) : List PathValue :=
  fsDrainAux env f.inner.drain

/-! ### Helper lemmas about the collector iterator -/

theorem vecPop_eq_none {l : List α} (h : vecPop l = none) : l = [] := by
  cases l with
  | nil => rfl
  | cons a rest =>
    exfalso
    cases hr : vecPop rest with
    | none => simp [vecPop, hr] at h
    | some pr => simp [vecPop, hr] at h

theorem vecPop_concat (l : List α) (a : α) : vecPop (l ++ [a]) = some (a, l) := by
  induction l with
  | nil => rfl
  | cons b bs ih => simp [vecPop, ih]

theorem vecPop_length {l l' : List α} {x : α} (h : vecPop l = some (x, l')) :
    l'.length + 1 = l.length := by
  induction l generalizing x l' with
  | nil => simp [vecPop] at h
  | cons a rest ih =>
    cases hr : vecPop rest with
    | none =>
      have : rest = [] := vecPop_eq_none hr
      subst this
      simp [vecPop] at h
      simp [← h.2]
    | some pr =>
      simp [vecPop, hr] at h
      obtain ⟨rfl, rfl⟩ := h
      simp [← ih hr]

theorem hintLen_glob (l : List FsPath) : hintLen (.glob l) = l.length := rfl

theorem hintLen_gdb (l : List FsPath) : hintLen (.gdb l) = l.length := rfl

theorem hintLen_grouped (cs : List Collector) :
    hintLen (.grouped cs) = sizeHintFold cs := by
  simp [hintLen, Collector.sizeHint]

mutual

theorem next_hint (c : Collector) :
    (∀ pv c', Collector.next c = (some pv, c') → hintLen c' + 1 = hintLen c) ∧
    (∀ c', Collector.next c = (none, c') → c' = c ∧ hintLen c = 0) := by
  cases c with
  | glob l =>
    constructor
    · intro pv c' h
      cases hp : vecPop l with
      | none => simp [Collector.next, hp] at h
      | some pr =>
        simp [Collector.next, hp] at h
        obtain ⟨x, l'⟩ := pr
        obtain ⟨-, rfl⟩ := h
        simpa [hintLen_glob] using vecPop_length hp
    · intro c' h
      cases hp : vecPop l with
      | none =>
        simp [Collector.next, hp] at h
        subst h
        simp [hintLen_glob, vecPop_eq_none hp]
      | some pr => simp [Collector.next, hp] at h
  | gdb l =>
    constructor
    · intro pv c' h
      cases hp : vecPop l with
      | none => simp [Collector.next, hp] at h
      | some pr =>
        simp [Collector.next, hp] at h
        obtain ⟨x, l'⟩ := pr
        obtain ⟨-, rfl⟩ := h
        simpa [hintLen_gdb] using vecPop_length hp
    · intro c' h
      cases hp : vecPop l with
      | none =>
        simp [Collector.next, hp] at h
        subst h
        simp [hintLen_gdb, vecPop_eq_none hp]
      | some pr => simp [Collector.next, hp] at h
  | grouped cs =>
    have hg := nextGroup_hint cs
    constructor
    · intro pv c' h
      cases hng : nextGroup cs with
      | mk r cs' =>
        simp [Collector.next, hng] at h
        obtain ⟨rfl, rfl⟩ := h
        simpa [hintLen_grouped] using hg.1 pv cs' hng
    · intro c' h
      cases hng : nextGroup cs with
      | mk r cs' =>
        simp [Collector.next, hng] at h
        obtain ⟨rfl, rfl⟩ := h
        obtain ⟨rfl, h0⟩ := hg.2 cs' hng
        simpa [hintLen_grouped] using h0

theorem nextGroup_hint (cs : List Collector) :
    (∀ pv cs', nextGroup cs = (some pv, cs') →
      sizeHintFold cs' + 1 = sizeHintFold cs) ∧
    (∀ cs', nextGroup cs = (none, cs') → cs' = cs ∧ sizeHintFold cs = 0) := by
  cases cs with
  | nil =>
    constructor
    · intro pv cs' h
      simp [nextGroup] at h
    · intro cs' h
      simp [nextGroup] at h
      simp [h, sizeHintFold]
  | cons c rest =>
    have hc := next_hint c
    have hrest := nextGroup_hint rest
    constructor
    · intro pv cs' h
      cases hn : Collector.next c with
      | mk r c' =>
        cases r with
        | some pv₀ =>
          simp [nextGroup, hn] at h
          obtain ⟨rfl, rfl⟩ := h
          have := hc.1 pv₀ c' hn
          simp [sizeHintFold, hintLen] at this ⊢
          omega
        | none =>
          obtain ⟨rfl, hz⟩ := hc.2 c' hn
          cases hng : nextGroup rest with
          | mk r₂ rest' =>
            cases r₂ with
            | some pv₂ =>
              simp [nextGroup, hn, hng] at h
              obtain ⟨rfl, rfl⟩ := h
              have := hrest.1 pv₂ rest' hng
              simp [sizeHintFold, hintLen] at hz ⊢
              omega
            | none =>
              simp [nextGroup, hn, hng] at h
    · intro cs' h
      cases hn : Collector.next c with
      | mk r c' =>
        cases r with
        | some pv₀ =>
          simp [nextGroup, hn] at h
        | none =>
          obtain ⟨rfl, hz⟩ := hc.2 c' hn
          cases hng : nextGroup rest with
          | mk r₂ rest' =>
            cases r₂ with
            | some pv₂ =>
              simp [nextGroup, hn, hng] at h
            | none =>
              simp [nextGroup, hn, hng] at h
              obtain ⟨rfl⟩ := h
              obtain ⟨rfl, hz₂⟩ := hrest.2 rest' hng
              refine ⟨rfl, ?_⟩
              simp [sizeHintFold, hintLen] at hz ⊢
              omega

end

theorem next_of_hint_zero {c : Collector} (h : hintLen c = 0) :
    Collector.next c = (none, c) := by
  cases hn : Collector.next c with
  | mk r c' =>
    cases r with
    | some pv =>
      have := (next_hint c).1 pv c' hn
      omega
    | none =>
      obtain ⟨rfl, -⟩ := (next_hint c).2 c' hn
      rfl

theorem drainF_succ_none {c c' : Collector}
    (h : Collector.next c = (none, c')) (fuel : Nat) :
    drainF (fuel + 1) c = [] := by
  simp [drainF, h]

theorem drainF_succ_some {c c' : Collector} {pv : PathValue}
    (h : Collector.next c = (some pv, c')) (fuel : Nat) :
    drainF (fuel + 1) c = pv :: drainF fuel c' := by
  simp [drainF, h]

theorem drain_def (c : Collector) :
    Collector.drain c = drainF (hintLen c + 1) c := rfl

theorem drainF_stable :
    ∀ (c : Collector) (fuel : Nat), hintLen c < fuel →
      drainF fuel c = drainF (hintLen c + 1) c := by
  suffices h : ∀ n (c : Collector), hintLen c = n → ∀ fuel, hintLen c < fuel →
      drainF fuel c = drainF (hintLen c + 1) c by
    intro c fuel hf
    exact h (hintLen c) c rfl fuel hf
  intro n
  induction n using Nat.strong_induction_on with
  | _ n ih =>
    intro c hc fuel hf
    obtain ⟨f, rfl⟩ : ∃ f, fuel = f + 1 := ⟨fuel - 1, by omega⟩
    cases hn : Collector.next c with
    | mk r c' =>
      cases r with
      | none =>
        rw [drainF_succ_none hn, drainF_succ_none hn]
      | some pv =>
        have hlt := (next_hint c).1 pv c' hn
        rw [drainF_succ_some hn, drainF_succ_some hn]
        have e1 : drainF f c' = drainF (hintLen c' + 1) c' := by
          refine ih (hintLen c') (by omega) c' rfl f (by omega)
        have e2 : drainF (hintLen c) c' = drainF (hintLen c' + 1) c' := by
          rw [← hlt]
        rw [e1, e2]

theorem drain_some {c c' : Collector} {pv : PathValue}
    (h : Collector.next c = (some pv, c')) :
    Collector.drain c = pv :: Collector.drain c' := by
  have hlt := (next_hint c).1 pv c' h
  rw [drain_def, drainF_succ_some h, drain_def]
  have : drainF (hintLen c) c' = drainF (hintLen c' + 1) c' := by rw [← hlt]
  rw [this]

theorem drain_none {c c' : Collector} (h : Collector.next c = (none, c')) :
    Collector.drain c = [] := by
  rw [drain_def, drainF_succ_none h]

theorem drain_length (c : Collector) :
    (Collector.drain c).length = hintLen c := by
  generalize hgen : hintLen c = n
  induction n using Nat.strong_induction_on generalizing c with
  | _ n ih =>
    cases hn : Collector.next c with
    | mk r c' =>
      cases r with
      | none =>
        obtain ⟨rfl, hz⟩ := (next_hint c).2 c' hn
        rw [drain_none hn]
        simp [← hgen, hz]
      | some pv =>
        have hlt := (next_hint c).1 pv c' hn
        rw [drain_some hn]
        have := ih (hintLen c') (by omega) c' rfl
        simp [this]
        omega

theorem next_glob_concat (l : List FsPath) (a : FsPath) :
    Collector.next (.glob (l ++ [a])) = (some (.buf a), .glob l) := by
  simp [Collector.next, vecPop_concat]

theorem next_gdb_concat (l : List FsPath) (a : FsPath) :
    Collector.next (.gdb (l ++ [a])) = (some (.buf a), .gdb l) := by
  simp [Collector.next, vecPop_concat]

theorem drain_glob (l : List FsPath) :
    Collector.drain (.glob l) = l.reverse.map PathValue.buf := by
  induction l using List.reverseRecOn with
  | nil =>
    have h : Collector.next (.glob ([] : List FsPath)) = (none, .glob []) := rfl
    simp [drain_none h]
  | append_singleton bs a ih =>
    rw [drain_some (next_glob_concat bs a), ih]
    simp

theorem drain_gdb (l : List FsPath) :
    Collector.drain (.gdb l) = l.reverse.map PathValue.buf := by
  induction l using List.reverseRecOn with
  | nil =>
    have h : Collector.next (.gdb ([] : List FsPath)) = (none, .gdb []) := rfl
    simp [drain_none h]
  | append_singleton bs a ih =>
    rw [drain_some (next_gdb_concat bs a), ih]
    simp

theorem drain_grouped_cons_zero {c : Collector} (hz : hintLen c = 0) :
    ∀ cs, Collector.drain (.grouped (c :: cs)) = Collector.drain (.grouped cs) := by
  have hc0 : Collector.next c = (none, c) := next_of_hint_zero hz
  suffices h : ∀ n cs, sizeHintFold cs = n →
      Collector.drain (.grouped (c :: cs)) = Collector.drain (.grouped cs) by
    intro cs
    exact h (sizeHintFold cs) cs rfl
  intro n
  induction n using Nat.strong_induction_on with
  | _ n ih =>
    intro cs hcs
    cases hg : nextGroup cs with
    | mk r cs' =>
      have hnext₁ : Collector.next (.grouped cs) = (r, .grouped cs') := by
        simp [Collector.next, hg]
      have hnext₂ : Collector.next (.grouped (c :: cs)) = (r, .grouped (c :: cs')) := by
        simp [Collector.next, nextGroup, hc0, hg]
      cases r with
      | none =>
        rw [drain_none hnext₁, drain_none hnext₂]
      | some pv =>
        have hlt := (nextGroup_hint cs).1 pv cs' hg
        rw [drain_some hnext₁, drain_some hnext₂]
        rw [ih (sizeHintFold cs') (by omega) cs' rfl]

theorem drain_grouped_cons (c : Collector) (cs : List Collector) :
    Collector.drain (.grouped (c :: cs)) =
      Collector.drain c ++ Collector.drain (.grouped cs) := by
  generalize hgen : hintLen c = n
  induction n using Nat.strong_induction_on generalizing c with
  | _ n ih =>
    cases hn : Collector.next c with
    | mk r c' =>
      cases r with
      | none =>
        obtain ⟨rfl, hz⟩ := (next_hint c).2 c' hn
        rw [drain_none hn, drain_grouped_cons_zero hz]
        simp
      | some pv =>
        have hlt := (next_hint c).1 pv c' hn
        have hnext : Collector.next (.grouped (c :: cs)) =
            (some pv, .grouped (c' :: cs)) := by
          simp [Collector.next, nextGroup, hn]
        rw [drain_some hn, drain_some hnext]
        rw [ih (hintLen c') (by omega) c' rfl]
        simp

theorem drain_grouped (cs : List Collector) :
    Collector.drain (.grouped cs) = (cs.map Collector.drain).flatten := by
  induction cs with
  | nil =>
    have h : Collector.next (.grouped []) = (none, .grouped []) := rfl
    simp [drain_none h]
  | cons c cs ih =>
    rw [drain_grouped_cons, ih]
    simp

theorem fsDrainAux_length_le (env : FsEnv) (l : List PathValue) :
    (fsDrainAux env l).length ≤ l.length := by
  induction l with
  | nil => simp [fsDrainAux]
  | cons pv rest ih =>
    cases h : fsClaimStep env pv with
    | yielded out => simp [fsDrainAux, h]; omega
    | skipped lg => simp [fsDrainAux, h]; omega

theorem sizeHintFold_eq_sum (cs : List Collector) :
    sizeHintFold cs = (cs.map fun c => (Collector.sizeHint c).1).sum := by
  induction cs with
  | nil => rfl
  | cons c cs ih => simp [sizeHintFold, ih]

/-- The DONE_PREFIX test of the FS variant (length guard plus leading
byte comparison) is exactly the negation of "the file name begins with
the done tag". -/
theorem doneCheck_iff (f : List Char) :
    (f.length < doneTag.length ∨ f.take doneTag.length ≠ doneTag) ↔
      ¬ doneTag <+: f := by
  constructor
  · rintro (h | h) hp
    · exact absurd hp.length_le (by omega)
    · exact h (by rw [List.prefix_iff_eq_take] at hp; exact hp.symm)
  · intro hp
    by_cases hl : f.length < doneTag.length
    · exact Or.inl hl
    · refine Or.inr fun he => hp ?_
      rw [List.prefix_iff_eq_take]
      exact he.symm

theorem join_children_length (a b : Collector) :
    (a.join b).children.length =
      a.flatChildren.length + b.flatChildren.length := by
  cases a <;> cases b <;>
    simp [Collector.join, Collector.children, Collector.flatChildren] <;>
    omega

theorem join_flatChildren_eq_children (a b : Collector) :
    (a.join b).flatChildren = (a.join b).children := by
  cases a <;> cases b <;> rfl

/-! ### Concrete values used by the evaluation theorems -/

/-- A concrete metrics bundle whose runtime field is `n` and whose other
fields are fixed. -/
def sampleBundle (n : Nat) : MetricsBundle where
  metrics := { TestMetrics.failed with runtime := n }
  solver := "s"
  test_set := "t"
  target := "p"

def pathA : FsPath := ⟨"dir", "a.cnf".data⟩

def pathB : FsPath := ⟨"dir", "b.cnf".data⟩

def pathC : FsPath := ⟨"dir", "c.cnf".data⟩

/-! ### Claim theorems -/

/-- Claim C1: Batched adapter conservation fails on the code. With batch
size 2 and three successful `store` calls followed by `close`, the inner
adapter receives only two rows: the third call finds the buffer full,
drains the two buffered bundles, and drops its own bundle — it is never
buffered and not part of the drain, so the row total is 2, not 3, and
the flush-triggering bundle is absent from everything ever inserted. -/
theorem batched_conservation_fails :
    ((BatchedConnection.loaded 2).storeMany
        [sampleBundle 1, sampleBundle 2, sampleBundle 3]).close.length = 2 ∧
    [sampleBundle 1, sampleBundle 2, sampleBundle 3].length = 3 ∧
    sampleBundle 3 ∉ ((BatchedConnection.loaded 2).storeMany
        [sampleBundle 1, sampleBundle 2, sampleBundle 3]).close := by
  refine ⟨rfl, rfl, ?_⟩
  decide

/-- Claim C2, counterexample: a Glob test set with both `path` and
`paths` given. `preflight_checks` emits the warning but does NOT append
`path` to `paths` — `paths` is returned unchanged and does not contain
the `path` value, contradicting "`path` has been appended to `paths`". -/
theorem preflight_path_merge_counterexample :
    (preflightGlob (some "q") ["p"]).warned = true ∧
    (preflightGlob (some "q") ["p"]).paths = ["p"] ∧
    "q" ∉ (preflightGlob (some "q") ["p"]).paths := by
  refine ⟨rfl, rfl, ?_⟩
  decide

/-- Claim C2, amended: when both `path` and `paths` are given,
`preflight_checks` warns and leaves both fields unchanged; enumeration
still covers `path` exactly once because `Collector::load` adds `path`
as a separate walk root besides `paths`. When only `path` is given
(`paths` empty), `path` is appended to `paths` without a warning; since
`path` stays set as well, `Collector::load` then registers it as a walk
root twice. -/
theorem preflight_path_merge_amended (p : String) (paths : List String) :
    (paths ≠ [] →
      preflightGlob (some p) paths =
        { path := some p, paths := paths, warned := true, errored := false } ∧
      (p ∉ paths → (globWalkRoots (some p) paths).count p = 1)) ∧
    (preflightGlob (some p) [] =
      { path := some p, paths := [p], warned := false, errored := false } ∧
    (globWalkRoots (some p) (preflightGlob (some p) []).paths).count p = 2) := by
  constructor
  · intro hne
    constructor
    · simp [preflightGlob, hne]
    · intro hnm
      simp [globWalkRoots, List.count_append, List.count_eq_zero_of_not_mem hnm]
  · constructor
    · simp [preflightGlob]
    · simp [preflightGlob, globWalkRoots, List.count_cons]

/-- Claim C2, witness for the amended theorem at path "a", paths ["b"]. -/
theorem preflight_path_merge_witness :
    preflightGlob (some "a") ["b"] =
      { path := some "a", paths := ["b"], warned := true, errored := false } ∧
    (globWalkRoots (some "a") ["b"]).count "a" = 1 :=
  ⟨((preflight_path_merge_amended "a" ["b"]).1 (by decide)).1,
   ((preflight_path_merge_amended "a" ["b"]).1 (by decide)).2 (by decide)⟩

/-- Claim C3: runtime-zero NULL encoding fails on the `store_iter` path.
For a bundle with runtime 0, the single-row `store` binds SQL NULL as
the first parameter, but `store_iter` — the path used by batched and
delayed flushes — binds the integer 0 verbatim, so a zero runtime
reaching the database through a flush is NOT inserted as NULL. -/
theorem store_iter_runtime_zero_not_null :
    (InnerConnection.storeParams (sampleBundle 0).metrics "p" 1 1 1).head? =
      some SqlValue.null ∧
    (InnerConnection.storeIterParams (sampleBundle 0) 1 1 1).head? =
      some (SqlValue.int 0) ∧
    SqlValue.int 0 ≠ SqlValue.null := by
  refine ⟨rfl, rfl, ?_⟩
  decide

/-- Claim C4: the FS-claim step rule. A receipt is yielded unchanged; a
plain path that exists and whose file name does not begin with the done
tag gets a claim rename: success yields a fresh receipt on the
processing-prefixed name in the same directory, ENOENT skips with only a
debug-level log (silent in the spec's sense: no warning or error),
EACCES skips with a warning log, any other errno skips with an
error log; a done-tagged or absent file is skipped without any log; and
every step either yields or skips — the step has no error outcome to
propagate. -/
theorem fs_claim_step_rule (env : FsEnv) (p : FsPath) :
    (fsClaimStep env (.wrapped p) = .yielded (.wrapped p)) ∧
    ((env p).present = true → ¬ doneTag <+: p.file →
      ((env p).rename = .ok →
        fsClaimStep env (.buf p) =
          .yielded (.wrapped { p with file := processingTag ++ p.file })) ∧
      ((env p).rename = .enoent →
        fsClaimStep env (.buf p) = .skipped (some .debugL)) ∧
      ((env p).rename = .eacces →
        fsClaimStep env (.buf p) = .skipped (some .warnL)) ∧
      (∀ e, (env p).rename = .other e →
        fsClaimStep env (.buf p) = .skipped (some .errorL))) ∧
    ((env p).present = true → doneTag <+: p.file →
      fsClaimStep env (.buf p) = .skipped none) ∧
    ((env p).present = false → fsClaimStep env (.buf p) = .skipped none) ∧
    (∀ pv, (∃ out, fsClaimStep env pv = .yielded out) ∨
      ∃ lg, fsClaimStep env pv = .skipped lg) := by
  refine ⟨rfl, ?_, ?_, ?_, ?_⟩
  · intro hp hnd
    have hcond := (doneCheck_iff p.file).mpr hnd
    refine ⟨?_, ?_, ?_, ?_⟩
    · intro hr; simp [fsClaimStep, hp, hcond, hr]
    · intro hr; simp [fsClaimStep, hp, hcond, hr]
    · intro hr; simp [fsClaimStep, hp, hcond, hr]
    · intro e hr; simp [fsClaimStep, hp, hcond, hr]
  · intro hp hd
    have hcond : ¬ (p.file.length < doneTag.length ∨
        p.file.take doneTag.length ≠ doneTag) := by
      intro hc
      exact (doneCheck_iff p.file).mp hc hd
    simp [fsClaimStep, hp, hcond]
  · intro hp
    simp [fsClaimStep, hp]
  · intro pv
    cases h : fsClaimStep env pv with
    | yielded out => exact Or.inl ⟨out, rfl⟩
    | skipped lg => exact Or.inr ⟨lg, rfl⟩

/-- Claim C4, witness: an existing unclaimed file "a.cnf" under an
environment whose rename succeeds is yielded as a fresh receipt with the
processing tag prepended. -/
theorem fs_claim_step_rule_witness :
    fsClaimStep (fun _ => ⟨true, .ok⟩) (.buf pathA) =
      .yielded (.wrapped ⟨"dir", processingTag ++ "a.cnf".data⟩) :=
  ((fs_claim_step_rule (fun _ => ⟨true, .ok⟩) pathA).2.1 rfl (by decide)).1 rfl

/-- Claim C5: `join` always returns a Grouped collector; its direct
children are, up to permutation, the one-level flattening of both
arguments (a Grouped argument contributes its children, any other
argument contributes itself — never a nested Grouped of the argument);
and both association orders of three joins have the same number of flat
children. -/
theorem join_flattening (a b c : Collector) :
    ((a.join b).isGrouped = true) ∧
    ((a.join b).children.Perm (a.flatChildren ++ b.flatChildren)) ∧
    (((a.join b).join c).children.length =
      (a.join (b.join c)).children.length) := by
  refine ⟨?_, ?_, ?_⟩
  · cases a <;> cases b <;> rfl
  · cases a with
    | grouped cs =>
      cases b <;> simp [Collector.join, Collector.children, Collector.flatChildren]
    | glob l =>
      cases b with
      | grouped cs =>
        simp [Collector.join, Collector.children, Collector.flatChildren]
      | glob l' => simp [Collector.join, Collector.children, Collector.flatChildren]
      | gdb l' => simp [Collector.join, Collector.children, Collector.flatChildren]
    | gdb l =>
      cases b with
      | grouped cs =>
        simp [Collector.join, Collector.children, Collector.flatChildren]
      | glob l' => simp [Collector.join, Collector.children, Collector.flatChildren]
      | gdb l' => simp [Collector.join, Collector.children, Collector.flatChildren]
  · have h1 := join_children_length (a.join b) c
    have h2 := join_children_length a (b.join c)
    have h3 := join_children_length a b
    have h4 := join_children_length b c
    have e1 := join_flatChildren_eq_children a b
    have e2 := join_flatChildren_eq_children b c
    rw [h1, h2, e1, e2, h3, h4]
    omega

/-- Claim C6: `size_hint` exactness. Glob and GDB report exactly the
number of materialized paths remaining, which is exactly the number of
items the collector will still yield; Grouped reports the sum of the
children's lower bounds; the FS wrapper reports the inner collector's
hint, which bounds from above the number of items it will actually
yield under any filesystem environment. -/
theorem size_hint_spec :
    (∀ l : List FsPath, Collector.sizeHint (.glob l) = (l.length, some l.length) ∧
      (Collector.drain (.glob l)).length = l.length) ∧
    (∀ l : List FsPath, Collector.sizeHint (.gdb l) = (l.length, some l.length) ∧
      (Collector.drain (.gdb l)).length = l.length) ∧
    (∀ cs : List Collector, Collector.sizeHint (.grouped cs) =
      ((cs.map fun c => (Collector.sizeHint c).1).sum,
        some (cs.map fun c => (Collector.sizeHint c).1).sum)) ∧
    (∀ f : FSCollector, f.sizeHint = f.inner.sizeHint ∧
      ∀ env : FsEnv, (f.yields env).length ≤ f.sizeHint.1) := by
  refine ⟨?_, ?_, ?_, ?_⟩
  · intro l
    exact ⟨rfl, by simp [drain_glob]⟩
  · intro l
    exact ⟨rfl, by simp [drain_gdb]⟩
  · intro cs
    simp [Collector.sizeHint, sizeHintFold_eq_sum]
  · intro f
    refine ⟨rfl, fun env => ?_⟩
    calc (f.yields env).length ≤ f.inner.drain.length :=
          fsDrainAux_length_le env f.inner.drain
      _ = hintLen f.inner := drain_length f.inner
      _ = f.sizeHint.1 := rfl

/-- Claim C7: a timed-out task kills the child and, when the storage
steps succeed, commits exactly the `TestMetrics::failed()` record —
whose numeric fields are all zero and whose satisfiability is Unknown —
adding nothing to the error counter; the error counter grows (by one)
exactly when one of the storage steps for that record fails. -/
theorem timeout_failure_record (lockOk txOk insertOk commitOk : Bool) :
    (timeoutBranch lockOk txOk insertOk commitOk).killed = true ∧
    TestMetrics.failed.allNumericZero ∧
    TestMetrics.failed.satisfiable = .unknown ∧
    (lockOk = true → txOk = true → insertOk = true → commitOk = true →
      timeoutBranch lockOk txOk insertOk commitOk =
        { killed := true, committed := some TestMetrics.failed,
          errorsAdded := 0 }) ∧
    ((timeoutBranch lockOk txOk insertOk commitOk).errorsAdded = 0 ↔
      (lockOk = true ∧ txOk = true ∧ insertOk = true ∧ commitOk = true)) := by
  revert lockOk txOk insertOk commitOk
  decide

/-- Claim C7, witness: all four storage steps succeed. -/
theorem timeout_failure_record_witness :
    timeoutBranch true true true true =
      { killed := true, committed := some TestMetrics.failed,
        errorsAdded := 0 } :=
  (timeout_failure_record true true true true).2.2.2.1 rfl rfl rfl rfl

/-- An attempt oracle whose first three underlying close calls fail and
whose fourth (attempt index 3, the claimed third retry) succeeds. -/
def attFourthOk : Nat → Bool := fun k => decide (k = 3)

/-- Claim C8, counterexample: under `attFourthOk` the code surfaces the
error after three attempts in total (two retries), so the claimed third
retry never happens and `close` fails even though that retry would have
succeeded. -/
theorem close_retry_counterexample :
    InnerConnection.close attFourthOk = (false, 3) ∧ attFourthOk 3 = true := by
  exact ⟨rfl, rfl⟩

/-- Claim C8, amended: `close` attempts the underlying close at most
three times in total — the initial attempt plus up to two retries — and
surfaces the error after the third failed attempt; if any of the first
three attempts succeeds, `close` returns ok. -/
theorem close_retry_amended (att : Nat → Bool) :
    (att 0 = true → InnerConnection.close att = (true, 1)) ∧
    (att 0 = false → att 1 = true → InnerConnection.close att = (true, 2)) ∧
    (att 0 = false → att 1 = false → att 2 = true →
      InnerConnection.close att = (true, 3)) ∧
    (att 0 = false → att 1 = false → att 2 = false →
      InnerConnection.close att = (false, 3)) := by
  refine ⟨?_, ?_, ?_, ?_⟩
  · intro h0
    simp [InnerConnection.close, InnerConnection.closeFrom, h0]
  · intro h0 h1
    simp [InnerConnection.close, InnerConnection.closeFrom, h0, h1]
  · intro h0 h1 h2
    simp [InnerConnection.close, InnerConnection.closeFrom, h0, h1, h2]
  · intro h0 h1 h2
    simp [InnerConnection.close, InnerConnection.closeFrom, h0, h1, h2]

/-- Claim C8, witness: the second attempt succeeds, close returns ok
after two attempts. -/
theorem close_retry_amended_witness :
    InnerConnection.close (fun k => decide (k = 1)) = (true, 2) :=
  (close_retry_amended (fun k => decide (k = 1))).2.1 rfl rfl

/-- Claim C9, counterexample: a Grouped collector over two Glob children
whose first child materialized paths a.cnf then b.cnf. Iteration yields
all of the first child before the second, but WITHIN the child the
order is b.cnf then a.cnf — the reverse of materialization order
(`Vec::pop` takes from the back) — not the claimed materialized order. -/
theorem grouped_order_counterexample :
    Collector.drain (.grouped [.glob [pathA, pathB], .glob [pathC]]) =
      [.buf pathB, .buf pathA, .buf pathC] ∧
    Collector.drain (.grouped [.glob [pathA, pathB], .glob [pathC]]) ≠
      [.buf pathA, .buf pathB, .buf pathC] := by
  refine ⟨rfl, ?_⟩
  decide

/-- Claim C9, amended: a Grouped collector yields the full item sequence
of its first child, then of the next, until all children are exhausted
(its drain is the concatenation of the children's drains, in child
order); within a Glob (or GDB) child the items come in the REVERSE of
the materialized vector order, because `next` pops from the back. -/
theorem grouped_order_amended (cs : List Collector) (l : List FsPath) :
    Collector.drain (.grouped cs) = (cs.map Collector.drain).flatten ∧
    Collector.drain (.glob l) = l.reverse.map PathValue.buf :=
  ⟨drain_grouped cs, drain_glob l⟩

/-- Claim C10: the `--solver`/`--test` arguments of `execute` EXCLUDE:
the retained configuration consists exactly of the entries whose key is
not in the given list, so naming a solver (or test set) removes it from
the run instead of selecting it. -/
theorem execute_filter_excludes {α : Type} (given : List String)
    (entries : List (String × α)) :
    (∀ k (v : α), (k, v) ∈ executeFilter given entries ↔
      ((k, v) ∈ entries ∧ k ∉ given)) ∧
    (∀ k (v : α), k ∈ given → (k, v) ∉ executeFilter given entries) := by
  constructor
  · intro k v
    simp [executeFilter, List.mem_filter]
  · intro k v hk hmem
    rw [executeFilter, List.mem_filter] at hmem
    simp at hmem
    exact hmem.2 hk

/-- Claim C10, witness: filtering with --solver s2 keeps s1 and removes
s2. -/
theorem execute_filter_excludes_witness :
    ("s1", 0) ∈ executeFilter ["s2"] [("s1", 0), ("s2", 1)] ∧
    ("s2", 1) ∉ executeFilter ["s2"] [("s1", 0), ("s2", 1)] :=
  ⟨((execute_filter_excludes ["s2"] [("s1", 0), ("s2", 1)]).1 "s1" 0).mpr
      (by decide),
   (execute_filter_excludes ["s2"] [("s1", 0), ("s2", 1)]).2 "s2" 1
      (by decide)⟩

end SATAn
